import Mathlib

/-!
# Verification of the polars typed columnar core

Shallow embedding of the data model and schema/plan-builder operations of the
polars repository (polars-core `datatypes.rs`, polars-lazy `builder.rs`,
polars-core `series/iterator.rs`, nodejs-polars `conversion/from.rs`), together
with theorems settling the specification claims about them.

Rust machine integers are embedded as `Int` (no claim below involves wrapping
arithmetic), `&str`/`String` as `String`, `Result<T>` as `Except PolarsError T`
and a Rust `panic!`/`unimplemented!`/`todo!` as the error branch of an
`Except`/`Option` result.
-/

namespace Polars

/-- The error taxonomy of `PolarsError` (polars-core), restricted to the
variants the embedded code constructs. -/
inductive PolarsError where
  | NotFound (msg : String)
  | ComputeError (msg : String)
  | IoError (msg : String)
  deriving Repr, DecidableEq

/-- `TimeUnit` from polars-core `datatypes.rs`. -/
inductive TimeUnit where
  | Nanoseconds
  | Milliseconds
  deriving Repr, DecidableEq

/-- `TimeZone` is an alias for `String` in `datatypes.rs`. -/
abbrev TimeZone := String

/-- The `DataType` enum from polars-core `datatypes.rs`.  `Object` carries the
`&'static str` type name. -/
inductive DataType where
  | Boolean
  | UInt8
  | UInt16
  | UInt32
  | UInt64
  | Int8
  | Int16
  | Int32
  | Int64
  | Float32
  | Float64
  | Utf8
  | Date
  | Datetime (tu : TimeUnit) (tz : Option TimeZone)
  | Duration (tu : TimeUnit)
  | Time
  | List (inner : DataType)
  | Object (typeName : String)
  | Null
  | Categorical
  | Unknown
  deriving Repr, DecidableEq

namespace DataType

/-- `DataType::to_physical` from `datatypes.rs`: `Date → Int32`,
`Datetime(_, _) → Int64`, `Duration(_) → Int64`, `Time → Int64`,
`Categorical → UInt32`, everything else is cloned unchanged. -/
def to_physical : DataType → DataType
  | Date => Int32
  | Datetime _ _ => Int64
  | Duration _ => Int64
  | Time => Int64
  | Categorical => UInt32
  | t => t

/-- `DataType::is_logical` from `datatypes.rs`: `self != &self.to_physical()`. -/
def is_logical (t : DataType) : Bool := t ≠ t.to_physical

end DataType

/-- `Field` from polars-core `datatypes.rs`: a column name paired with a
`DataType`. -/
structure Field where
  name : String
  data_type : DataType
  deriving Repr, DecidableEq

/-- `Field::new` from `datatypes.rs`. -/
def Field.new (name : String) (data_type : DataType) : Field := ⟨name, data_type⟩

/-- `Schema` from polars-core `datatypes.rs`: an ordered list of fields. -/
structure Schema where
  fields : List Field
  deriving Repr, DecidableEq

namespace Schema

/-- `Schema::new` from `datatypes.rs`. -/
def new (fields : List Field) : Schema := ⟨fields⟩

/-- `Schema::index_of` from `datatypes.rs`: position of the first field with
the given name, or a `NotFound` error enumerating the valid field names. -/
def index_of (s : Schema) (name : String) : Except PolarsError Nat :=
  match s.fields.findIdx? (fun f => f.name == name) with
  | some i => .ok i
  | none =>
      .error (.NotFound ("Unable to get field named \"" ++ name
        ++ "\". Valid fields: " ++ toString (s.fields.map (fun f => f.name))))

/-- `Schema::field_with_name` from `datatypes.rs`:
`Ok(&self.fields[self.index_of(name)?])`.  The index returned by `index_of`
is always in bounds, so the infallible Rust indexing is embedded with `getD`. -/
def field_with_name (s : Schema) (name : String) : Except PolarsError Field :=
  match s.index_of name with
  | .error e => .error e
  | .ok i => .ok (s.fields.getD i (Field.new "" .Null))

/-- `Schema::rename` from `datatypes.rs`: first every old name is resolved to
an index via `index_of` (collected into a `Result`, so the first miss aborts
the whole call), and only then is the cloned field list rewritten at those
indices with the new names. -/
def rename (s : Schema) (old_names new_names : List String) :
    Except PolarsError Schema := do
  let idx ← old_names.mapM (fun name => s.index_of name)
  let new_fields := (idx.zip new_names).foldl
    (fun fs (p : Nat × String) =>
      let dt := (fs.getD p.1 (Field.new "" .Null)).data_type
      fs.set p.1 (Field.new p.2 dt))
    s.fields
  return Schema.new new_fields

/-- `Schema::try_merge` from `datatypes.rs`: fold the schemas in order; each
field is appended to the merged field list only when no already-merged field
carries the same name (the source's inner loop clears `new_field` on a name
match and never overwrites). -/
def try_merge (schemas : List Schema) : Except PolarsError Schema :=
  let merged := schemas.foldl
    (fun merged schema =>
      schema.fields.foldl
        (fun mfs field =>
          if mfs.any (fun mf => mf.name == field.name) then mfs
          else mfs ++ [field])
        merged)
    []
  .ok (Schema.new merged)

end Schema

/-- Stated from the spec's words for claim C3 ("unions fields by first-seen
name, first occurrence wins, new names appended in order of first
appearance"): keep each field whose name has not been seen yet, scanning left
to right.  `seen` is the list of fields already kept. -/
def keepFirstByName (seen : List Field) : List Field → List Field
  | [] => []
  | f :: rest =>
      if seen.any (fun mf => mf.name == f.name) then keepFirstByName seen rest
      else f :: keepFirstByName (f :: seen) rest

/-- `RevMapping` (the categorical reverse mapping from polars-core), reduced
to the data the embedded `AnyValue` equality consults: a `Global` mapping is
compared by its cache id (third field of `RevMapping::Global`), a `Local`
mapping by pointer identity of its string array, embedded as an address. -/
inductive RevMapping where
  | Global (id : Nat)
  | Local (addr : Nat)
  deriving Repr, DecidableEq

/-- The `Series` held by `AnyValue::List`.  None of the embedded operations
inspect a list series' contents (`PartialEq` panics on two `List`s and
`to_static` clones the series wholesale), so it is embedded opaquely by an
identifier; `Series::clone` produces an equal value. -/
structure Series where
  id : Nat
  deriving Repr, DecidableEq

/-- `Series::clone`: an `Arc` clone, equal to the original value. -/
def Series.clone (s : Series) : Series := s

/-- The `AnyValue<'a>` enum from polars-core `datatypes.rs`.  Rust integer
payloads are embedded as `Int` (`u32` of `Categorical` as `Nat`), the borrowed
`&'a str` of `Utf8` as `String`, the borrowed `&'a dyn PolarsObjectSafe` of
`Object` as an opaque identifier, and float payloads as Lean `Float`. -/
inductive AnyValue where
  | Null
  | Boolean (b : Bool)
  | Utf8 (s : String)
  | UInt8 (v : Int)
  | UInt16 (v : Int)
  | UInt32 (v : Int)
  | UInt64 (v : Int)
  | Int8 (v : Int)
  | Int16 (v : Int)
  | Int32 (v : Int)
  | Int64 (v : Int)
  | Float32 (v : Float)
  | Float64 (v : Float)
  | Date (v : Int)
  | Datetime (v : Int) (tu : TimeUnit) (tz : Option TimeZone)
  | Duration (v : Int) (tu : TimeUnit)
  | Time (v : Int)
  | Categorical (idx : Nat) (rev : RevMapping)
  | List (s : Series)
  | Object (o : Nat)
  deriving Repr

namespace AnyValue

/-- Modelled from the spec: the textual rendering of an `AnyValue` used in the
`ComputeError` message of `to_static` (the `Display` impl for `AnyValue` lives
outside the provided sources).  Abbreviated to the variant name; the claims
constrain only the fixed message prefix. -/
def display : AnyValue → String
  | Null => "null"
  | Boolean _ => "bool"
  | Utf8 _ => "str"
  | UInt8 _ => "u8"
  | UInt16 _ => "u16"
  | UInt32 _ => "u32"
  | UInt64 _ => "u64"
  | Int8 _ => "i8"
  | Int16 _ => "i16"
  | Int32 _ => "i32"
  | Int64 _ => "i64"
  | Float32 _ => "f32"
  | Float64 _ => "f64"
  | Date _ => "date"
  | Datetime _ _ _ => "datetime"
  | Duration _ _ => "duration"
  | Time _ => "time"
  | Categorical _ _ => "cat"
  | List _ => "list"
  | Object _ => "object"

/-- `AnyValue::to_static` from `datatypes.rs`: copy out every matched variant
(`Null`, the integers, `Boolean`, the floats, `Date`, `Time`, and `List` via
an owned clone); every other variant (`Utf8`, `Datetime`, `Duration`,
`Categorical`, `Object`) falls into the catch-all arm and returns the
`ComputeError` "cannot get static AnyValue from ...". -/
def to_static : AnyValue → Except PolarsError AnyValue
  | Null => .ok .Null
  | Int8 v => .ok (.Int8 v)
  | Int16 v => .ok (.Int16 v)
  | Int32 v => .ok (.Int32 v)
  | Int64 v => .ok (.Int64 v)
  | UInt8 v => .ok (.UInt8 v)
  | UInt16 v => .ok (.UInt16 v)
  | UInt32 v => .ok (.UInt32 v)
  | UInt64 v => .ok (.UInt64 v)
  | Boolean v => .ok (.Boolean v)
  | Float32 v => .ok (.Float32 v)
  | Float64 v => .ok (.Float64 v)
  | Date v => .ok (.Date v)
  | Time v => .ok (.Time v)
  | List v => .ok (.List v.clone)
  | dt => .error (.ComputeError ("cannot get static AnyValue from " ++ dt.display))

/-- `impl PartialEq for AnyValue` from `datatypes.rs`.  The two `panic!` arms
(`List` vs `List`, `Object` vs `Object`) are embedded as the error branch
carrying the panic message; every other pairing returns a boolean, with the
cross-variant catch-all returning `false`. -/
def eq : AnyValue → AnyValue → Except String Bool
  | Utf8 l, Utf8 r => .ok (l == r)
  | UInt8 l, UInt8 r => .ok (l == r)
  | UInt16 l, UInt16 r => .ok (l == r)
  | UInt32 l, UInt32 r => .ok (l == r)
  | UInt64 l, UInt64 r => .ok (l == r)
  | Int8 l, Int8 r => .ok (l == r)
  | Int16 l, Int16 r => .ok (l == r)
  | Int32 l, Int32 r => .ok (l == r)
  | Int64 l, Int64 r => .ok (l == r)
  | Float32 l, Float32 r => .ok (l == r)
  | Float64 l, Float64 r => .ok (l == r)
  | Time l, Time r => .ok (l == r)
  | Date l, Date r => .ok (l == r)
  | Datetime l tul tzl, Datetime r tur tzr => .ok (l == r && tul == tur && tzl == tzr)
  | Boolean l, Boolean r => .ok (l == r)
  | List _, List _ => .error "eq between list series not supported"
  | Object _, Object _ => .error "eq between object not supported"
  | Null, Null => .ok true
  | Categorical idxl revl, Categorical idxr revr =>
      match revl, revr with
      | .Global idl, .Global idr => .ok (idl == idr && idxl == idxr)
      | .Local al, .Local ar => .ok (al == ar && idxl == idxr)
      | _, _ => .ok false
  | Duration l tul, Duration r tur => .ok (l == r && tul == tur)
  | _, _ => .ok false

end AnyValue

/-- Modelled from the spec: the expression fragment relevant to join-key
resolution ("keys are identified by *expression* name, not position").
`utils::expr_output_name` lives outside the provided sources; a column
reference names itself, an alias names its alias, and an expression without a
determinable output name (e.g. a wildcard) has none. -/
inductive Expr where
  | Column (name : String)
  | Alias (e : Expr) (name : String)
  | Wildcard
  deriving Repr, DecidableEq

/-- Modelled from the spec: `utils::expr_output_name` (outside the provided
sources) resolves an expression to its output column name. -/
def expr_output_name : Expr → Option String
  | .Column name => some name
  | .Alias _ name => some name
  | .Wildcard => none

/-- The output-schema derivation of `LogicalPlanBuilder::join` from
`builder.rs`: push every left field verbatim (recording the left names); build
the set of right-key names by resolving each `right_on` expression with
`expr_output_name(..).expect(..)` (embedded as the `Option` bind); then for
each right field in order, skip it when its name is a right-key name, push it
with the configured suffix appended when its name collides with a left name,
and push it verbatim otherwise. -/
def join_schema (schema_left schema_right : Schema) (right_on : List Expr)
    (suffix : String) : Option Schema := do
  let names := schema_left.fields.map (fun f => f.name)
  let fields := schema_left.fields
  let right_names ← right_on.mapM expr_output_name
  let fields := schema_right.fields.foldl
    (fun fs f =>
      if right_names.any (fun s => s == f.name) then fs
      else if names.contains f.name then
        fs ++ [Field.new (f.name ++ suffix) f.data_type]
      else fs ++ [f])
    fields
  return Schema.new fields

/-- `det_melt_schema` from `builder.rs`: keep the input fields whose name is
not in `value_vars` (in order), then append `"variable": Utf8` and
`"value": <dtype of value_vars[0]>`.  The Rust indexing `value_vars[0]`
(panics on an empty list) and the `.expect("field not found")` around
`field_with_name` are embedded as the `Option` binds. -/
def det_melt_schema (value_vars : List String) (input_schema : Schema) :
    Option Schema := do
  let fields := input_schema.fields.filter (fun field => !value_vars.contains field.name)
  let first ← value_vars.head?
  let value_field ← (input_schema.field_with_name first).toOption
  return Schema.new (fields ++
    [Field.new "variable" .Utf8, Field.new "value" value_field.data_type])

/-- Modelled from the spec: `is_compressed` (polars-io `csv_core::utils`,
outside the provided sources) reports whether the file's first two bytes
match a known compression magic number (gzip `1f 8b`, zlib `78 01` / `78 9c`
/ `78 da`). -/
def compression_magic : List (Nat × Nat) :=
  [(0x1f, 0x8b), (0x78, 0x01), (0x78, 0x9c), (0x78, 0xda)]

/-- Modelled from the spec: a byte slice is compressed when it starts with a
known two-byte compression magic number. -/
def is_compressed (bytes : List Nat) : Bool :=
  match bytes with
  | b0 :: b1 :: _ => compression_magic.contains (b0, b1)
  | _ => false

/-- The `CsvScan` plan node, reduced to the derived schema (the only part of
the node the claims constrain). -/
structure CsvScanNode where
  schema : Schema
  deriving Repr, DecidableEq

/-- `LogicalPlanBuilder::scan_csv` from `builder.rs`, over the opened file's
contents as a byte list: `read_exact` pulls the first two bytes (an I/O error
when the file is shorter); a compressed magic number aborts the build with the
`ComputeError` "cannot scan compressed csv; use read_csv for compressed
data"; otherwise the node's schema is the caller-provided one, or else the
inferred one (`infer_file_schema` lives outside the provided sources and is
abstracted as the `infer` parameter over the whole file). -/
def scan_csv (infer : List Nat → Schema) (file : List Nat)
    (schema : Option Schema) : Except PolarsError CsvScanNode :=
  match file with
  | b0 :: b1 :: _ =>
      if is_compressed [b0, b1] then
        .error (.ComputeError
          "cannot scan compressed csv; use read_csv for compressed data")
      else
        .ok ⟨schema.getD (infer file)⟩
  | _ => .error (.IoError "failed to fill whole buffer")

/-- N-API `ValueType` (the `napi` crate), as consulted by the nodejs-polars
conversion layer. -/
inductive ValueType where
  | Undefined
  | Null
  | Boolean
  | Number
  | String
  | Symbol
  | Object
  | Function
  | External
  | Bigint
  deriving Repr, DecidableEq

/-- Modelled from the N-API contract: the `Display` rendering of a
`ValueType`, interpolated into the adapter's error message. -/
def valueTypeDisplay : ValueType → String
  | .Undefined => "undefined"
  | .Null => "null"
  | .Boolean => "boolean"
  | .Number => "number"
  | .String => "string"
  | .Symbol => "symbol"
  | .Object => "object"
  | .Function => "function"
  | .External => "external"
  | .Bigint => "bigint"

/-- A JavaScript value crossing the N-API boundary (`JsUnknown`), shaped by
what the adapter distinguishes.  Arrays and plain objects are both of
`ValueType::Object`. -/
inductive JsValue where
  | undefined
  | null
  | boolean (b : Bool)
  | number (n : Float)
  | string (s : String)
  | bigint (i : Int)
  | symbol
  | function
  | external
  | array (elems : List JsValue)
  | object (props : List (String × JsValue))
  deriving Repr

namespace JsValue

/-- `JsUnknown::get_type`. -/
def get_type : JsValue → ValueType
  | .undefined => .Undefined
  | .null => .Null
  | .boolean _ => .Boolean
  | .number _ => .Number
  | .string _ => .String
  | .bigint _ => .Bigint
  | .symbol => .Symbol
  | .function => .Function
  | .external => .External
  | .array _ => .Object
  | .object _ => .Object

/-- `JsUnknown::is_array`. -/
def is_array : JsValue → Bool
  | .array _ => true
  | _ => false

/-- Modelled from the N-API contract: `JsObject::get_array_length`
(`napi_get_array_length`) fails with an array-expected error on any value
that is not a JavaScript array. -/
def get_array_length : JsValue → Except String Nat
  | .array elems => .ok elems.length
  | _ => .error "expected Array"

/-- `JsObject::get_element` at an index; in-bounds reads on an array return
the element (out-of-bounds reads yield `undefined` in JavaScript). -/
def get_element : JsValue → Nat → Except String JsValue
  | .array elems, i => .ok (elems.getD i .undefined)
  | _, _ => .error "expected Array"

end JsValue

/-- `impl<V> FromJsUnknown for Vec<V>::from_js` from nodejs-polars
`conversion/from.rs`: a value whose `ValueType` is not `Object` is rejected
with the "Invalid cast, unable to cast {type} to array" error; an `Object` is
cast to `JsObject` and iterated with `get_array_length` / `get_element`,
converting each element through `V`'s extractor. -/
def vec_from_js {β : Type} (extract : JsValue → Except String β)
    (val : JsValue) : Except String (List β) :=
  match val.get_type with
  | .Object => do
      let len ← val.get_array_length
      (List.range len).mapM (fun i => do
        let item ← val.get_element i
        extract item)
  | dt => .error ("Invalid cast, unable to cast " ++ valueTypeDisplay dt ++ " to array")

/-- The part of `Series` that `Series::iter` (polars-core
`series/iterator.rs`) consults: the list of chunks, each chunk embedded as
the list of its converted values.  The element conversion
(`arr_to_any_value`, outside the provided sources) plays no role in the
iterator's index bookkeeping, so the element type is a parameter. -/
structure ChunkedSeries (α : Type) where
  chunks : List (List α)

/-- `SeriesIter` from `series/iterator.rs`: the borrowed single chunk, the
current index, and the captured length. -/
structure SeriesIter (α : Type) where
  arr : List α
  idx : Nat
  len : Nat

/-- `Series::iter` from `series/iterator.rs`:
`assert_eq!(self.chunks().len(), 1)` (the panic embedded as `none`), then an
iterator over chunk 0 starting at index 0 with `len = arr.len()`. -/
def ChunkedSeries.iter {α : Type} (s : ChunkedSeries α) :
    Option (SeriesIter α) :=
  if s.chunks.length = 1 then
    some ⟨s.chunks.getD 0 [], 0, (s.chunks.getD 0 []).length⟩
  else none

/-- `Iterator::next for SeriesIter` from `series/iterator.rs`: the stored
index is incremented unconditionally; the old index is compared with `len`
once — equality yields `None`, any other index is read from the array
unchecked (`arr_to_any_value` is an `unsafe` positional read; a read past the
end is undefined behaviour, embedded as the `getD` default and never relied
on below). -/
def SeriesIter.next {α : Type} [Inhabited α] (s : SeriesIter α) :
    Option α × SeriesIter α :=
  let idx := s.idx
  let s' : SeriesIter α := { s with idx := s.idx + 1 }
  if idx = s.len then (none, s') else (some (s.arr.getD idx default), s')

/-- The state of a `SeriesIter` after `k` calls to `next`. -/
def SeriesIter.run {α : Type} [Inhabited α] (s : SeriesIter α) :
    Nat → SeriesIter α
  | 0 => s
  | k + 1 => (s.run k).next.2

/-- The value produced by the `(k+1)`-th call to `next`. -/
def SeriesIter.outputAt {α : Type} [Inhabited α] (s : SeriesIter α)
    (k : Nat) : Option α :=
  (s.run k).next.1

end Polars

namespace Polars

/-- C2: `to_physical` is idempotent; `is_logical T` holds exactly when
`T ≠ to_physical T`; and the projection maps `Date` to `Int32`, `Datetime`,
`Duration` and `Time` to `Int64`, `Categorical` to `UInt32`, and every other
type to itself. -/
theorem to_physical_idempotent_is_logical_projection :
    (∀ T : DataType, T.to_physical.to_physical = T.to_physical)
    ∧ (∀ T : DataType, T.is_logical = true ↔ T ≠ T.to_physical)
    ∧ (∀ T : DataType,
        T.to_physical =
          match T with
          | .Date => .Int32
          | .Datetime _ _ => .Int64
          | .Duration _ => .Int64
          | .Time => .Int64
          | .Categorical => .UInt32
          | t => t) := by
  refine ⟨?_, ?_, ?_⟩
  · intro T; cases T <;> rfl
  · intro T
    simp [DataType.is_logical]
  · intro T; cases T <;> rfl

theorem keepFirstByName_congr (l : List Field) :
    ∀ s₁ s₂ : List Field,
      (∀ name, s₁.any (fun mf => mf.name == name) = s₂.any (fun mf => mf.name == name)) →
      keepFirstByName s₁ l = keepFirstByName s₂ l := by
  induction l with
  | nil => intro s₁ s₂ _; rfl
  | cons f rest ih =>
      intro s₁ s₂ h
      have hcons : ∀ name,
          ((f :: s₁).any fun mf => mf.name == name) =
          ((f :: s₂).any fun mf => mf.name == name) := by
        intro name; simp [List.any_cons, h name]
      simp only [keepFirstByName, h f.name, ih s₁ s₂ h, ih (f :: s₁) (f :: s₂) hcons]

theorem foldl_merge_eq_keepFirstByName (l : List Field) :
    ∀ acc : List Field,
      l.foldl
        (fun mfs field =>
          if mfs.any (fun mf => mf.name == field.name) then mfs
          else mfs ++ [field]) acc
      = acc ++ keepFirstByName acc l := by
  induction l with
  | nil => intro acc; simp [keepFirstByName]
  | cons f rest ih =>
      intro acc
      rw [List.foldl_cons]
      simp only [keepFirstByName]
      by_cases h : (acc.any fun mf => mf.name == f.name) = true
      · rw [if_pos h, if_pos h]
        exact ih acc
      · rw [if_neg h, if_neg h]
        rw [ih (acc ++ [f])]
        have hc : ∀ name,
            ((acc ++ [f]).any fun mf => mf.name == name) =
            ((f :: acc).any fun mf => mf.name == name) := by
          intro name
          simp [List.any_append, List.any_cons, Bool.or_comm]
        rw [keepFirstByName_congr rest (acc ++ [f]) (f :: acc) hc]
        simp

theorem foldl_schemas_eq_foldl_flatten (schemas : List Schema) :
    ∀ init : List Field,
      schemas.foldl
        (fun merged schema =>
          schema.fields.foldl
            (fun mfs field =>
              if mfs.any (fun mf => mf.name == field.name) then mfs
              else mfs ++ [field])
            merged)
        init
      = (schemas.map Schema.fields).flatten.foldl
          (fun mfs field =>
            if mfs.any (fun mf => mf.name == field.name) then mfs
            else mfs ++ [field])
          init := by
  induction schemas with
  | nil => intro init; rfl
  | cons s rest ih =>
      intro init
      rw [List.foldl_cons, List.map_cons, List.flatten_cons, List.foldl_append]
      exact ih _

/-- C3: `Schema::try_merge` returns (always `Ok`) the union of the input
schemas' fields keyed by name, scanning schemas in order and fields in order,
where the first occurrence of each name wins and new names are appended in
order of first appearance; in particular
`try_merge [{a:Int32}, {a:Utf8, b:Bool}] = Ok {a:Int32, b:Bool}`. -/
theorem try_merge_first_wins :
    (∀ schemas : List Schema,
      Schema.try_merge schemas =
        .ok (Schema.new (keepFirstByName [] (schemas.map Schema.fields).flatten)))
    ∧ Schema.try_merge
        [Schema.new [Field.new "a" .Int32],
         Schema.new [Field.new "a" .Utf8, Field.new "b" .Boolean]] =
      .ok (Schema.new [Field.new "a" .Int32, Field.new "b" .Boolean]) := by
  constructor
  · intro schemas
    unfold Schema.try_merge
    rw [foldl_schemas_eq_foldl_flatten, foldl_merge_eq_keepFirstByName,
      List.nil_append]
  · rfl

theorem findIdx?_eq_none_of_all_not {α : Type} (p : α → Bool) :
    ∀ l : List α, (∀ x ∈ l, p x = false) → l.findIdx? p = none := by
  intro l h
  rw [List.findIdx?_eq_none_iff]
  intro x hx
  simp [h x hx]

theorem index_of_notfound_of_absent (s : Schema) (o : String)
    (habs : ∀ f ∈ s.fields, f.name ≠ o) :
    ∃ msg, s.index_of o = .error (.NotFound msg) := by
  have hnone : s.fields.findIdx? (fun f => f.name == o) = none := by
    refine findIdx?_eq_none_of_all_not _ _ ?_
    intro f hf
    simp [habs f hf]
  refine ⟨"Unable to get field named \"" ++ o ++ "\". Valid fields: "
    ++ toString (s.fields.map (fun f => f.name)), ?_⟩
  simp [Schema.index_of, hnone]

theorem mapM_index_of_error (s : Schema) :
    ∀ (names : List String),
      (∃ o, o ∈ names ∧ ∀ f ∈ s.fields, f.name ≠ o) →
      ∃ msg, names.mapM (fun name => s.index_of name) =
        .error (.NotFound msg) := by
  intro names
  induction names with
  | nil => rintro ⟨o, ho, -⟩; cases ho
  | cons n rest ih =>
      rintro ⟨o, ho, habs⟩
      rcases List.mem_cons.mp ho with rfl | hmem
      · obtain ⟨msg, hmsg⟩ := index_of_notfound_of_absent s o habs
        refine ⟨msg, ?_⟩
        simp only [List.mapM_cons, hmsg]
        rfl
      · cases heq : s.index_of n with
        | error e =>
            have he : ∃ msg, e = PolarsError.NotFound msg := by
              simp only [Schema.index_of] at heq
              rcases hfi : s.fields.findIdx? (fun f => f.name == n) with _ | i
              · rw [hfi] at heq
                simp at heq
                exact ⟨_, heq.symm⟩
              · rw [hfi] at heq
                simp at heq
            obtain ⟨msg, rfl⟩ := he
            refine ⟨msg, ?_⟩
            simp only [List.mapM_cons, heq]
            rfl
        | ok i =>
            obtain ⟨msg, hmsg⟩ := ih ⟨o, hmem, habs⟩
            refine ⟨msg, ?_⟩
            simp only [List.mapM_cons, heq, hmsg]
            rfl

/-- C7: `Schema::rename` is atomic — whenever any requested old name is absent
from the schema, the call returns the `NotFound` error and no renamed schema
(partial or otherwise) is ever produced: all index lookups are collected into
a `Result` before any field is rewritten. -/
theorem rename_atomic (s : Schema) (old_names new_names : List String)
    (h : ∃ o, o ∈ old_names ∧ ∀ f ∈ s.fields, f.name ≠ o) :
    ∃ msg, s.rename old_names new_names = .error (.NotFound msg) := by
  obtain ⟨msg, hmsg⟩ := mapM_index_of_error s old_names h
  refine ⟨msg, ?_⟩
  simp only [Schema.rename]
  rw [hmsg]
  rfl

/-- Witness for `rename_atomic` at a concrete input: renaming the absent
column `b` of schema `{a: Int32}` fails with `NotFound`. -/
theorem rename_atomic_witness :
    ∃ msg, (Schema.new [Field.new "a" .Int32]).rename ["b"] ["c"] =
      .error (.NotFound msg) :=
  rename_atomic (Schema.new [Field.new "a" .Int32]) ["b"] ["c"]
    ⟨"b", List.mem_singleton.mpr rfl,
      by
        intro f hf
        have hf' : f = Field.new "a" .Int32 := by
          simpa [Schema.new] using hf
        subst hf'; decide⟩

/-- C5 counterexample: the claim says `to_static` succeeds for every variant
holding no external borrows, including "the date-ish variants"; but
`Duration`, which borrows nothing, falls into the catch-all arm and fails
with a `ComputeError`. -/
theorem to_static_duration_counterexample :
    (AnyValue.Duration 1 .Nanoseconds).to_static =
      .error (.ComputeError "cannot get static AnyValue from duration") := rfl

/-- C5 (amended): `to_static` succeeds, returning an equal owned value, for
exactly the variants matched by its copy arms — `Null`, the integer variants,
`Boolean`, the float variants, `Date`, `Time`, and `List` (via an owned
clone) — and fails with a `ComputeError` "cannot get static AnyValue from
..." for every other variant: the borrowed `Utf8`, `Categorical` and `Object`
variants, the `Datetime` variant (which borrows its timezone), and also the
borrow-free `Duration` variant, which the catch-all arm rejects as well. -/
theorem to_static_characterization :
    ∀ v : AnyValue,
      match v with
      | .Utf8 _ | .Datetime _ _ _ | .Duration _ _ | .Categorical _ _ | .Object _ =>
          v.to_static =
            .error (.ComputeError ("cannot get static AnyValue from " ++ v.display))
      | _ => v.to_static = .ok v := by
  intro v
  cases v <;> rfl

/-- C6: `AnyValue` equality between two `List` variants or two `Object`
variants fails loudly (a panic, embedded as the error branch) rather than
returning any boolean, while `Null == Null` is defined and returns `true`. -/
theorem eq_list_object_panic_null_defined :
    (∀ s₁ s₂ : Series,
      (AnyValue.List s₁).eq (AnyValue.List s₂) =
        .error "eq between list series not supported")
    ∧ (∀ o₁ o₂ : Nat,
      (AnyValue.Object o₁).eq (AnyValue.Object o₂) =
        .error "eq between object not supported")
    ∧ AnyValue.Null.eq AnyValue.Null = .ok true :=
  ⟨fun _ _ => rfl, fun _ _ => rfl, rfl⟩

theorem foldl_append_toList {α β : Type} (g : α → Option β) :
    ∀ (l : List α) (acc : List β),
      l.foldl (fun fs f => fs ++ (g f).toList) acc = acc ++ l.filterMap g := by
  intro l
  induction l with
  | nil => intro acc; simp
  | cons f rest ih =>
      intro acc
      rw [List.foldl_cons, ih]
      cases hg : g f <;> simp [List.filterMap_cons, hg]

theorem contains_eq_any_beq_rev (l : List String) (a : String) :
    l.contains a = l.any (fun s => s == a) := by
  induction l with
  | nil => rfl
  | cons b rest ih =>
      rw [List.contains_cons, List.any_cons, ih]
      have hab : (a == b) = (b == a) := by
        by_cases h : a = b
        · subst h; rfl
        · rw [beq_eq_false_iff_ne.mpr h, beq_eq_false_iff_ne.mpr (Ne.symm h)]
      rw [hab]

/-- Stated from the spec's words for claim C1: the contribution of one right
field to the join output schema — dropped when its name is a right-key output
name, suffixed when it collides with a left name, verbatim otherwise. -/
def join_right_field (rns lnames : List String) (suffix : String)
    (f : Field) : Option Field :=
  if rns.contains f.name then none
  else if lnames.contains f.name then
    some (Field.new (f.name ++ suffix) f.data_type)
  else some f

theorem join_foldl_eq_filterMap (rns lnames : List String) (suffix : String) :
    ∀ (l : List Field) (acc : List Field),
      l.foldl
        (fun fs f =>
          if rns.any (fun s => s == f.name) then fs
          else if lnames.contains f.name then
            fs ++ [Field.new (f.name ++ suffix) f.data_type]
          else fs ++ [f]) acc
      = acc ++ l.filterMap (join_right_field rns lnames suffix) := by
  intro l
  induction l with
  | nil => intro acc; simp
  | cons f rest ih =>
      intro acc
      rw [List.foldl_cons, ih, List.filterMap_cons]
      rw [← contains_eq_any_beq_rev rns f.name]
      by_cases h1 : rns.contains f.name = true
      · rw [if_pos h1]
        rw [show join_right_field rns lnames suffix f = none from by
          unfold join_right_field; rw [if_pos h1]]
      · rw [if_neg h1]
        by_cases h2 : lnames.contains f.name = true
        · rw [if_pos h2]
          rw [show join_right_field rns lnames suffix f =
              some (Field.new (f.name ++ suffix) f.data_type) from by
            unfold join_right_field; rw [if_neg h1, if_pos h2]]
          simp
        · rw [if_neg h2]
          rw [show join_right_field rns lnames suffix f = some f from by
            unfold join_right_field; rw [if_neg h1, if_neg h2]]
          simp

/-- C1: the output schema of the join builder is every left field verbatim in
order, followed by each right field that is not named by the output name of a
`right_on` key expression — kept verbatim when its name does not occur among
the left names, renamed by appending the suffix when it does; right fields
named like a right key are dropped (keys are matched by expression output
name).  In particular `{a:Int32, b:Utf8} ⋈ {a:Int32, c:Utf8}` on
`right_on=[a]` with suffix `"_right"` is `{a:Int32, b:Utf8, c:Utf8}`, and a
colliding right non-key field `a` comes out as `a_right`. -/
theorem join_schema_left_verbatim_right_dedup :
    (∀ (sl sr : Schema) (right_on : List Expr) (suffix : String)
       (rns : List String),
      right_on.mapM expr_output_name = some rns →
      join_schema sl sr right_on suffix =
        some (Schema.new (sl.fields ++ sr.fields.filterMap
          (join_right_field rns (sl.fields.map (fun g => g.name)) suffix))))
    ∧ join_schema (Schema.new [Field.new "a" .Int32, Field.new "b" .Utf8])
        (Schema.new [Field.new "a" .Int32, Field.new "c" .Utf8])
        [Expr.Column "a"] "_right" =
      some (Schema.new
        [Field.new "a" .Int32, Field.new "b" .Utf8, Field.new "c" .Utf8])
    ∧ join_schema (Schema.new [Field.new "a" .Int32, Field.new "b" .Utf8])
        (Schema.new [Field.new "a" .Int32, Field.new "b" .Int32])
        [Expr.Column "b"] "_right" =
      some (Schema.new
        [Field.new "a" .Int32, Field.new "b" .Utf8, Field.new "a_right" .Int32]) := by
  refine ⟨?_, rfl, rfl⟩
  intro sl sr right_on suffix rns h
  simp only [join_schema, h, Option.bind_eq_bind, Option.some_bind]
  rw [join_foldl_eq_filterMap]
  rfl

/-- Witness for `join_schema_left_verbatim_right_dedup` at a concrete input,
discharging the key-name-resolution hypothesis. -/
theorem join_schema_spec_witness :
    join_schema (Schema.new [Field.new "a" .Int32, Field.new "b" .Utf8])
        (Schema.new [Field.new "a" .Int32, Field.new "c" .Utf8])
        [Expr.Column "a"] "_right" =
      some (Schema.new
        ([Field.new "a" .Int32, Field.new "b" .Utf8] ++
          [Field.new "a" .Int32, Field.new "c" .Utf8].filterMap
            (join_right_field ["a"] ["a", "b"] "_right"))) :=
  join_schema_left_verbatim_right_dedup.1
    (Schema.new [Field.new "a" .Int32, Field.new "b" .Utf8])
    (Schema.new [Field.new "a" .Int32, Field.new "c" .Utf8])
    [Expr.Column "a"] "_right" ["a"] rfl

/-- C4: `det_melt_schema` over a non-empty `value_vars` list whose first entry
names a schema field returns the input fields not named in `value_vars`, in
their original order, followed by exactly `"variable": Utf8` and `"value"`
typed like the first `value_vars` entry; in particular
`value_vars=["x","y"]` over `{x:Int32, y:Int32, z:Utf8}` gives
`[z:Utf8, variable:Utf8, value:Int32]`. -/
theorem det_melt_schema_spec :
    (∀ (schema : Schema) (v0 : String) (vs : List String) (fld : Field),
      schema.field_with_name v0 = .ok fld →
      det_melt_schema (v0 :: vs) schema =
        some (Schema.new
          (schema.fields.filter (fun f => !(v0 :: vs).contains f.name)
            ++ [Field.new "variable" .Utf8, Field.new "value" fld.data_type])))
    ∧ det_melt_schema ["x", "y"]
        (Schema.new
          [Field.new "x" .Int32, Field.new "y" .Int32, Field.new "z" .Utf8]) =
      some (Schema.new
        [Field.new "z" .Utf8, Field.new "variable" .Utf8,
         Field.new "value" .Int32]) := by
  refine ⟨?_, rfl⟩
  intro schema v0 vs fld h
  simp [det_melt_schema, h, Except.toOption]

/-- Witness for `det_melt_schema_spec` at a concrete input, discharging the
lookup hypothesis on the first value variable. -/
theorem det_melt_schema_spec_witness :
    det_melt_schema ["x", "y"]
        (Schema.new
          [Field.new "x" .Int32, Field.new "y" .Int32, Field.new "z" .Utf8]) =
      some (Schema.new
        [Field.new "z" .Utf8, Field.new "variable" .Utf8,
         Field.new "value" .Int32]) :=
  det_melt_schema_spec.1
    (Schema.new [Field.new "x" .Int32, Field.new "y" .Int32, Field.new "z" .Utf8])
    "x" ["y"] (Field.new "x" .Int32) rfl

/-- C8: for every file whose first two bytes match a known compression magic
number, `scan_csv` fails at build time with the "cannot scan compressed csv"
`ComputeError` — uniformly in the remaining file bytes and in the schema
inference (so no byte beyond the first two is consulted), and no plan node is
produced. -/
theorem scan_csv_rejects_compressed (infer : List Nat → Schema)
    (schema : Option Schema) (b0 b1 : Nat) (rest : List Nat)
    (h : is_compressed [b0, b1] = true) :
    scan_csv infer (b0 :: b1 :: rest) schema =
      .error (.ComputeError
        "cannot scan compressed csv; use read_csv for compressed data") := by
  simp [scan_csv, h]

/-- Witness for `scan_csv_rejects_compressed`: a gzip-compressed file
(`1f 8b` magic) is rejected. -/
theorem scan_csv_rejects_compressed_witness :
    is_compressed [0x1f, 0x8b] = true ∧
    scan_csv (fun _ => Schema.new []) [0x1f, 0x8b, 97, 98] none =
      .error (.ComputeError
        "cannot scan compressed csv; use read_csv for compressed data") :=
  ⟨by decide,
    scan_csv_rejects_compressed (fun _ => Schema.new []) none 0x1f 0x8b [97, 98]
      (by decide)⟩

/-- C9: the generic array adapter (`FromJsUnknown for Vec<V>`) returns an
error — never a vector — for every input that is not an array: non-`Object`
values are rejected with the descriptive "Invalid cast, unable to cast ... to
array" message, and a non-array object fails in `get_array_length`. -/
theorem vec_from_js_rejects_non_array {β : Type}
    (extract : JsValue → Except String β) (v : JsValue)
    (h : v.is_array = false) :
    (∃ msg, vec_from_js extract v = .error msg)
    ∧ (v.get_type ≠ .Object →
        vec_from_js extract v =
          .error ("Invalid cast, unable to cast " ++ valueTypeDisplay v.get_type
            ++ " to array")) := by
  cases v with
  | array elems => simp [JsValue.is_array] at h
  | object props =>
      exact ⟨⟨"expected Array", rfl⟩, fun hne => absurd rfl hne⟩
  | undefined => exact ⟨⟨_, rfl⟩, fun _ => rfl⟩
  | null => exact ⟨⟨_, rfl⟩, fun _ => rfl⟩
  | boolean b => exact ⟨⟨_, rfl⟩, fun _ => rfl⟩
  | number n => exact ⟨⟨_, rfl⟩, fun _ => rfl⟩
  | string s => exact ⟨⟨_, rfl⟩, fun _ => rfl⟩
  | bigint i => exact ⟨⟨_, rfl⟩, fun _ => rfl⟩
  | symbol => exact ⟨⟨_, rfl⟩, fun _ => rfl⟩
  | function => exact ⟨⟨_, rfl⟩, fun _ => rfl⟩
  | external => exact ⟨⟨_, rfl⟩, fun _ => rfl⟩

/-- Witness for `vec_from_js_rejects_non_array`: a number is not an array and
is rejected. -/
theorem vec_from_js_rejects_non_array_witness :
    (∃ msg, vec_from_js (fun v => (.ok v : Except String JsValue))
      (JsValue.number 1.5) = .error msg)
    ∧ (JsValue.number 1.5).get_type ≠ .Object :=
  ⟨(vec_from_js_rejects_non_array (fun v => .ok v) (JsValue.number 1.5) rfl).1,
    by decide⟩

theorem seriesIter_next_snd {α : Type} [Inhabited α] (s : SeriesIter α) :
    s.next.2 = { s with idx := s.idx + 1 } := by
  by_cases h : s.idx = s.len <;> simp [SeriesIter.next, h]

theorem seriesIter_run_state {α : Type} [Inhabited α] (s : SeriesIter α) :
    ∀ k, (s.run k).arr = s.arr ∧ (s.run k).len = s.len ∧
      (s.run k).idx = s.idx + k := by
  intro k
  induction k with
  | zero => exact ⟨rfl, rfl, rfl⟩
  | succ k ih =>
      obtain ⟨ha, hl, hi⟩ := ih
      unfold SeriesIter.run
      rw [seriesIter_next_snd]
      exact ⟨ha, hl, by simp [hi, Nat.add_assoc]⟩

/-- C10: for a series with exactly one chunk `c`, `Series::iter` yields
`some` of the chunk element at each of the first `c.length` calls, then
`none` on the `(c.length+1)`-th call; the internal index keeps advancing past
the end (index after `k` calls is `k`), so only that first post-end call hits
the `idx == len` guard — later calls do not, and are outside the iterator's
guarantee.  `Series::iter` itself asserts the single-chunk precondition. -/
theorem series_iter_yields_then_none {α : Type} [Inhabited α]
    (s : ChunkedSeries α) (c : List α) (it : SeriesIter α)
    (hc : s.chunks = [c]) (hit : s.iter = some it) :
    (∀ t : ChunkedSeries α, t.chunks.length ≠ 1 → t.iter = none)
    ∧ (∀ k, (it.run k).idx = k)
    ∧ (∀ i, i < c.length → it.outputAt i = some (c.getD i default))
    ∧ it.outputAt c.length = none
    ∧ (∀ k, k > c.length → (it.run k).idx ≠ (it.run k).len) := by
  have hit' : it = ⟨c, 0, c.length⟩ := by
    rw [ChunkedSeries.iter, hc] at hit
    simpa using hit.symm
  subst hit'
  refine ⟨?_, ?_, ?_, ?_, ?_⟩
  · intro t ht
    rw [ChunkedSeries.iter, if_neg ht]
  · intro k
    simpa using (seriesIter_run_state (⟨c, 0, c.length⟩ : SeriesIter α) k).2.2
  · intro i hi
    obtain ⟨ha, hl, hk⟩ := seriesIter_run_state (⟨c, 0, c.length⟩ : SeriesIter α) i
    unfold SeriesIter.outputAt SeriesIter.next
    rw [ha, hl, hk]
    simp only [Nat.zero_add]
    rw [if_neg (Nat.ne_of_lt hi)]
  · obtain ⟨ha, hl, hk⟩ :=
      seriesIter_run_state (⟨c, 0, c.length⟩ : SeriesIter α) c.length
    unfold SeriesIter.outputAt SeriesIter.next
    rw [hl, hk]
    simp
  · intro k hknat
    obtain ⟨ha, hl, hk⟩ := seriesIter_run_state (⟨c, 0, c.length⟩ : SeriesIter α) k
    rw [hl, hk]
    simpa using Nat.ne_of_gt hknat

/-- Witness for `series_iter_yields_then_none` on the two-element single-chunk
series `[[10, 20]]`: two `some`s, then `none`, and the index keeps moving. -/
theorem series_iter_yields_then_none_witness :
    (ChunkedSeries.mk [[10, 20]] : ChunkedSeries Nat).iter =
      some (SeriesIter.mk [10, 20] 0 2)
    ∧ (SeriesIter.mk [10, 20] 0 2).outputAt 0 = some 10
    ∧ (SeriesIter.mk [10, 20] 0 2).outputAt 1 = some 20
    ∧ (SeriesIter.mk [10, 20] 0 2).outputAt 2 = none
    ∧ ((SeriesIter.mk [10, 20] 0 2).run 3).idx = 3 := by
  have h := series_iter_yields_then_none (ChunkedSeries.mk [[10, 20]])
    [10, 20] (SeriesIter.mk [10, 20] 0 2) rfl rfl
  exact ⟨rfl, h.2.2.1 0 (by decide), h.2.2.1 1 (by decide), h.2.2.2.1, h.2.1 3⟩

end Polars
